import Mathlib

/-!
Verification of the hexagon-hotspot engine (`src/etl/compute_hotspots.py`).

This file gives a shallow embedding of `compute_hotspots.py`, the geometric
core of the repository.  All coordinates produced by the grid generator live
in the quadratic field `ℚ[√3]` (the hexagon lattice mixes rational data with
multiples of `√3`), which we model by the computable structure `Q3` below so
that concrete grids can be evaluated exactly inside the kernel.

The map projection (`pyproj`, EPSG:4326 ↔ EPSG:3857) is kept abstract as a
pair of coordinate transforms (`Proj`); concrete evaluations instantiate it
with the identity transform, which preserves the planar lattice geometry that
the claims are about.
-/

attribute [local semireducible] Rat.inv Rat.mul Rat.add Rat.sub

/-- An element `a + b·√3` of the quadratic field `ℚ[√3]`, represented by the
pair of rational coordinates `(a, b)`.  All planar coordinates of the
generated hexagon grid live in this field. -/
structure Q3 where
  a : ℚ
  b : ℚ
deriving DecidableEq, Repr

namespace Q3

/-- The real number denoted by a `Q3` element. -/
noncomputable def val (x : Q3) : ℝ := (x.a : ℝ) + (x.b : ℝ) * Real.sqrt 3

def add (x y : Q3) : Q3 := ⟨x.a + y.a, x.b + y.b⟩

def neg (x : Q3) : Q3 := ⟨-x.a, -x.b⟩

def sub (x y : Q3) : Q3 := ⟨x.a - y.a, x.b - y.b⟩

/-- Multiplication: `(a + b√3)(c + d√3) = (ac + 3bd) + (ad + bc)√3`. -/
def mul (x y : Q3) : Q3 := ⟨x.a * y.a + 3 * x.b * y.b, x.a * y.b + x.b * y.a⟩

/-- Multiplicative inverse: `(a + b√3)⁻¹ = (a - b√3) / (a² - 3b²)`
(junk value `0` when the denominator vanishes, as for `ℚ`). -/
def inv (x : Q3) : Q3 :=
  let d := x.a ^ 2 - 3 * x.b ^ 2
  ⟨x.a / d, -x.b / d⟩

def div (x y : Q3) : Q3 := x.mul y.inv

/-- Embedding of `ℚ`. -/
def ofQ (q : ℚ) : Q3 := ⟨q, 0⟩

/-- Embedding of `ℤ`. -/
def ofInt (n : ℤ) : Q3 := ⟨(n : ℚ), 0⟩

/-- `√3` itself. -/
def sqrt3 : Q3 := ⟨0, 1⟩

/-- Decidable test for `0 ≤ a + b√3`, by sign analysis of the two
coordinates (squaring eliminates the radical). -/
def nonnegB (x : Q3) : Bool :=
  (decide (0 ≤ x.a) && decide (0 ≤ x.b)) ||
  (decide (0 ≤ x.a) && decide (3 * x.b ^ 2 ≤ x.a ^ 2)) ||
  (decide (0 ≤ x.b) && decide (x.a ^ 2 ≤ 3 * x.b ^ 2))

/-- Decidable test for `0 < a + b√3`. -/
def posB (x : Q3) : Bool := !(nonnegB x.neg)

/-- Decidable test for `x < y` (as real numbers). -/
def ltB (x y : Q3) : Bool := posB (y.sub x)

theorem val_add (x y : Q3) : (x.add y).val = x.val + y.val := by
  simp only [val, add]
  push_cast
  ring

theorem val_neg (x : Q3) : x.neg.val = -x.val := by
  simp only [val, neg]
  push_cast
  ring

theorem val_sub (x y : Q3) : (x.sub y).val = x.val - y.val := by
  simp only [val, sub]
  push_cast
  ring

theorem sq_sqrt3 : Real.sqrt 3 ^ 2 = 3 := Real.sq_sqrt (by norm_num)

theorem sqrt3_pos : 0 < Real.sqrt 3 := Real.sqrt_pos.mpr (by norm_num)

theorem val_mul (x y : Q3) : (x.mul y).val = x.val * y.val := by
  simp only [val, mul]
  push_cast
  linear_combination (-(x.b : ℝ) * y.b) * sq_sqrt3

theorem val_ofQ (q : ℚ) : (ofQ q).val = (q : ℝ) := by
  simp [val, ofQ]

theorem val_ofInt (n : ℤ) : (ofInt n).val = (n : ℝ) := by
  simp [val, ofInt]

theorem val_sqrt3 : sqrt3.val = Real.sqrt 3 := by
  simp [val, sqrt3]

/-- The conjugate-product identity used to eliminate the radical when
comparing `a + b√3` with `0`. -/
theorem conj_prod (a b : ℝ) :
    (a + b * Real.sqrt 3) * (a - b * Real.sqrt 3) = a ^ 2 - 3 * b ^ 2 := by
  linear_combination (-(b ^ 2)) * sq_sqrt3

/-- The computable nonnegativity test agrees with nonnegativity of the real
value. -/
theorem nonnegB_iff (x : Q3) : x.nonnegB = true ↔ 0 ≤ x.val := by
  obtain ⟨a, b⟩ := x
  simp only [nonnegB, val, Bool.or_eq_true, Bool.and_eq_true, decide_eq_true_eq]
  have hs0 := sqrt3_pos
  constructor
  · rintro ((⟨ha, hb⟩ | ⟨ha, hq⟩) | ⟨hb, hq⟩)
    · have hb' : (0 : ℝ) ≤ (b : ℝ) := by exact_mod_cast hb
      have ha' : (0 : ℝ) ≤ (a : ℝ) := by exact_mod_cast ha
      have := mul_nonneg hb' hs0.le
      linarith
    · have ha' : (0 : ℝ) ≤ (a : ℝ) := by exact_mod_cast ha
      have hq' : 3 * (b : ℝ) ^ 2 ≤ (a : ℝ) ^ 2 := by exact_mod_cast hq
      rcases le_or_lt 0 ((b : ℝ)) with hb | hb
      · have := mul_nonneg hb hs0.le
        linarith
      · have hd : 0 < (a : ℝ) - b * Real.sqrt 3 := by
          have := mul_pos (neg_pos.mpr hb) hs0
          linarith
        by_contra hcon
        push_neg at hcon
        have hneg := mul_neg_of_neg_of_pos hcon hd
        rw [conj_prod] at hneg
        linarith
    · have hb' : (0 : ℝ) ≤ (b : ℝ) := by exact_mod_cast hb
      have hq' : (a : ℝ) ^ 2 ≤ 3 * (b : ℝ) ^ 2 := by exact_mod_cast hq
      rcases le_or_lt 0 ((a : ℝ)) with ha | ha
      · have := mul_nonneg hb' hs0.le
        linarith
      · have hd : 0 < (b : ℝ) * Real.sqrt 3 - a := by
          have := mul_nonneg hb' hs0.le
          linarith
        by_contra hcon
        push_neg at hcon
        have hneg := mul_neg_of_neg_of_pos (show (b : ℝ) * Real.sqrt 3 + a < 0 by linarith) hd
        have hconj : ((b : ℝ) * Real.sqrt 3 + a) * ((b : ℝ) * Real.sqrt 3 - a)
            = 3 * (b : ℝ) ^ 2 - a ^ 2 := by
          linear_combination ((b : ℝ) ^ 2) * sq_sqrt3
        rw [hconj] at hneg
        linarith
  · intro hv
    by_contra hcon
    push_neg at hcon
    obtain ⟨⟨h1, h2⟩, h3⟩ := hcon
    rcases le_or_lt 0 a with ha | ha
    · have hb : b < 0 := h1 ha
      have hq : (a : ℚ) ^ 2 < 3 * b ^ 2 := h2 ha
      have ha' : (0 : ℝ) ≤ (a : ℝ) := by exact_mod_cast ha
      have hb' : (b : ℝ) < 0 := by exact_mod_cast hb
      have hq' : (a : ℝ) ^ 2 < 3 * (b : ℝ) ^ 2 := by exact_mod_cast hq
      have hd : 0 < (a : ℝ) - b * Real.sqrt 3 := by
        have := mul_pos (neg_pos.mpr hb') hs0
        linarith
      have hge := mul_nonneg hv hd.le
      rw [conj_prod] at hge
      linarith
    · have ha' : (a : ℝ) < 0 := by exact_mod_cast ha
      rcases le_or_lt 0 b with hb | hb
      · have hq : 3 * (b : ℚ) ^ 2 < a ^ 2 := h3 hb
        have hb' : (0 : ℝ) ≤ (b : ℝ) := by exact_mod_cast hb
        have hq' : 3 * (b : ℝ) ^ 2 < (a : ℝ) ^ 2 := by exact_mod_cast hq
        have hd : 0 < (b : ℝ) * Real.sqrt 3 - a := by
          have := mul_nonneg hb' hs0.le
          linarith
        have hge := mul_nonneg (show (0 : ℝ) ≤ (b : ℝ) * Real.sqrt 3 + a by linarith) hd.le
        have hconj : ((b : ℝ) * Real.sqrt 3 + a) * ((b : ℝ) * Real.sqrt 3 - a)
            = 3 * (b : ℝ) ^ 2 - a ^ 2 := by
          linear_combination ((b : ℝ) ^ 2) * sq_sqrt3
        rw [hconj] at hge
        linarith
      · have hb' : (b : ℝ) < 0 := by exact_mod_cast hb
        have := mul_pos (neg_pos.mpr hb') hs0
        linarith

/-- The computable positivity test agrees with positivity of the real
value. -/
theorem posB_iff (x : Q3) : x.posB = true ↔ 0 < x.val := by
  rw [posB, Bool.not_eq_true', ← Bool.not_eq_true, nonnegB_iff, val_neg]
  constructor
  · intro h
    push_neg at h
    linarith
  · intro h
    push_neg
    linarith

theorem ltB_iff (x y : Q3) : x.ltB y = true ↔ x.val < y.val := by
  rw [ltB, posB_iff, val_sub]
  constructor <;> intro <;> linarith

/-- Largest `k ≤ fuel` with `k*k ≤ n`, by downward search (structural
recursion, so the kernel can evaluate it on literals). -/
def sqrtSearch (n : ℕ) : ℕ → ℕ
  | 0 => 0
  | k + 1 => if (k + 1) * (k + 1) ≤ n then k + 1 else sqrtSearch n k

/-- Integer square root (kernel-reducible). -/
def natSqrtD (n : ℕ) : ℕ := sqrtSearch n n

theorem sqrtSearch_le (n : ℕ) : ∀ fuel, sqrtSearch n fuel * sqrtSearch n fuel ≤ n
  | 0 => by simp [sqrtSearch]
  | k + 1 => by
      rw [sqrtSearch]
      split
      · next h => exact h
      · exact sqrtSearch_le n k

theorem sqrtSearch_above (n : ℕ) :
    ∀ fuel j, sqrtSearch n fuel < j → j ≤ fuel → n < j * j
  | 0, j, h1, h2 => by omega
  | k + 1, j, h1, h2 => by
      rw [sqrtSearch] at h1
      split at h1
      · omega
      · next hc =>
        rcases Nat.eq_or_lt_of_le h2 with h | h
        · subst h
          omega
        · exact sqrtSearch_above n k j h1 (by omega)

theorem natSqrtD_le (n : ℕ) : natSqrtD n * natSqrtD n ≤ n := sqrtSearch_le n n

theorem lt_succ_natSqrtD (n : ℕ) : n < (natSqrtD n + 1) * (natSqrtD n + 1) := by
  by_cases h : natSqrtD n + 1 ≤ n
  · exact sqrtSearch_above n n _ (Nat.lt_succ_self _) h
  · have h1 := natSqrtD_le n
    have h2 : n ≤ natSqrtD n := by omega
    nlinarith

/-- `⌊q·√3⌋` for a nonnegative rational `q`, computed through `natSqrtD`. -/
def ratSqrt3Floor (q : ℚ) : ℤ := (natSqrtD (3 * q.num.toNat ^ 2) / q.den : ℕ)

/-- For `0 ≤ q`, `ratSqrt3Floor q` brackets `q·√3` from below within `1`. -/
theorem ratSqrt3Floor_bracket (q : ℚ) (hq : 0 ≤ q) :
    (ratSqrt3Floor q : ℝ) ≤ (q : ℝ) * Real.sqrt 3 ∧
      (q : ℝ) * Real.sqrt 3 < ratSqrt3Floor q + 1 := by
  set p : ℕ := q.num.toNat with hp
  have hden : (0 : ℝ) < (q.den : ℝ) := by
    exact_mod_cast q.pos
  have hqval : (q : ℝ) = (p : ℝ) / (q.den : ℝ) := by
    have hnum : (q.num.toNat : ℤ) = q.num := Int.toNat_of_nonneg (Rat.num_nonneg.mpr hq)
    rw [Rat.cast_def]
    congr 1
    rw [hp]
    exact_mod_cast hnum.symm
  set s : ℕ := natSqrtD (3 * p ^ 2) with hsdef
  -- `s ≤ p√3 < s + 1` over the reals
  have hkey : ((s : ℝ) ≤ (p : ℝ) * Real.sqrt 3) ∧ (p : ℝ) * Real.sqrt 3 < (s : ℝ) + 1 := by
    have hps : ((p : ℝ) * Real.sqrt 3) ^ 2 = 3 * (p : ℝ) ^ 2 := by
      rw [mul_pow, sq_sqrt3]
      ring
    have hps0 : 0 ≤ (p : ℝ) * Real.sqrt 3 := by positivity
    have hlow : (s : ℝ) ^ 2 ≤ 3 * (p : ℝ) ^ 2 := by
      have h := natSqrtD_le (3 * p ^ 2)
      rw [← hsdef] at h
      have h' : ((s : ℝ)) * (s : ℝ) ≤ 3 * (p : ℝ) ^ 2 := by exact_mod_cast h
      nlinarith [h']
    have hhigh : 3 * (p : ℝ) ^ 2 < ((s : ℝ) + 1) ^ 2 := by
      have h := lt_succ_natSqrtD (3 * p ^ 2)
      rw [← hsdef] at h
      have h' : 3 * (p : ℝ) ^ 2 < ((s : ℝ) + 1) * ((s : ℝ) + 1) := by exact_mod_cast h
      nlinarith [h']
    constructor
    · nlinarith [hps0, Nat.cast_nonneg (α := ℝ) s]
    · nlinarith [hps0, Nat.cast_nonneg (α := ℝ) s]
  have hdiv : (s / q.den : ℕ) * q.den ≤ s := Nat.div_mul_le_self s q.den
  have hdiv2 : s < q.den * ((s / q.den : ℕ) + 1) := Nat.lt_mul_div_succ s q.pos
  constructor
  · have h1 : ((s / q.den : ℕ) : ℝ) * (q.den : ℝ) ≤ (s : ℝ) := by exact_mod_cast hdiv
    rw [ratSqrt3Floor, hqval]
    rw [div_mul_eq_mul_div, le_div_iff₀ hden]
    push_cast
    calc ((s / q.den : ℕ) : ℝ) * (q.den : ℝ) ≤ (s : ℝ) := h1
      _ ≤ (p : ℝ) * Real.sqrt 3 := hkey.1
  · have hdiv3 : s + 1 ≤ q.den * ((s / q.den : ℕ) + 1) := hdiv2
    have h2 : (s : ℝ) + 1 ≤ (q.den : ℝ) * (((s / q.den : ℕ) : ℝ) + 1) := by exact_mod_cast hdiv3
    rw [ratSqrt3Floor, hqval]
    rw [div_mul_eq_mul_div, div_lt_iff₀ hden]
    push_cast
    calc (p : ℝ) * Real.sqrt 3 < (s : ℝ) + 1 := hkey.2
      _ ≤ (((s / q.den : ℕ) : ℝ) + 1) * (q.den : ℝ) := by linarith [h2]

/-- An integer lower bound for `b·√3`, within distance `1`, for any sign
of `b`. -/
def sqrt3MulLB (b : ℚ) : ℤ :=
  if 0 ≤ b then ratSqrt3Floor b else -(ratSqrt3Floor (-b)) - 1

theorem sqrt3MulLB_bracket (b : ℚ) :
    (sqrt3MulLB b : ℝ) ≤ (b : ℝ) * Real.sqrt 3 ∧
      (b : ℝ) * Real.sqrt 3 ≤ sqrt3MulLB b + 1 := by
  rw [sqrt3MulLB]
  split
  · next hb =>
    have h := ratSqrt3Floor_bracket b hb
    exact ⟨h.1, h.2.le⟩
  · next hb =>
    push_neg at hb
    have h := ratSqrt3Floor_bracket (-b) (by linarith)
    have hcast : ((-b : ℚ) : ℝ) = -(b : ℝ) := by push_cast; ring
    rw [hcast] at h
    push_cast
    constructor
    · nlinarith [h.2]
    · nlinarith [h.1]

/-- Floor of the real value, computed exactly: start from an integer lower
bound within `2` and correct by one decidable comparison. -/
def floor (x : Q3) : ℤ :=
  let lb := ⌊x.a⌋ + sqrt3MulLB x.b
  if ltB x (ofInt (lb + 1)) then lb else lb + 1

/-- Ceiling of the real value. -/
def ceil (x : Q3) : ℤ := -(floor x.neg)

theorem floor_eq (x : Q3) : Q3.floor x = ⌊x.val⌋ := by
  rw [floor]
  have hbr := sqrt3MulLB_bracket x.b
  have hfl : ((⌊x.a⌋ : ℤ) : ℝ) ≤ (x.a : ℝ) := by exact_mod_cast Int.floor_le x.a
  have hfl2 : (x.a : ℝ) < ((⌊x.a⌋ : ℤ) : ℝ) + 1 := by exact_mod_cast Int.lt_floor_add_one x.a
  have hval : x.val = (x.a : ℝ) + (x.b : ℝ) * Real.sqrt 3 := rfl
  split
  · next hlt =>
    rw [ltB_iff, val_ofInt] at hlt
    symm
    rw [Int.floor_eq_iff]
    constructor
    · push_cast
      rw [hval]
      linarith [hbr.1]
    · push_cast
      push_cast at hlt
      linarith [hlt]
  · next hge =>
    have hge' : ¬ (x.val < ((⌊x.a⌋ + sqrt3MulLB x.b + 1 : ℤ) : ℝ)) := by
      rw [← val_ofInt (⌊x.a⌋ + sqrt3MulLB x.b + 1), ← ltB_iff]
      simp [hge]
    push_neg at hge'
    symm
    rw [Int.floor_eq_iff]
    constructor
    · exact_mod_cast hge'
    · push_cast
      rw [hval]
      linarith [hbr.2]

theorem ceil_eq (x : Q3) : Q3.ceil x = ⌈x.val⌉ := by
  rw [ceil, floor_eq, val_neg, Int.floor_neg, neg_neg]

/-- If the conjugate norm `a² - 3b²` vanishes then both coordinates vanish
(irrationality of `√3`). -/
theorem discr_eq_zero {a b : ℚ} (h : a ^ 2 - 3 * b ^ 2 = 0) : a = 0 ∧ b = 0 := by
  by_cases hb : b = 0
  · subst hb
    constructor
    · have : a ^ 2 = 0 := by linarith
      exact pow_eq_zero_iff (n := 2) (by norm_num) |>.mp this
    · rfl
  · exfalso
    have hq : (a / b) ^ 2 = 3 := by
      field_simp
      linarith
    have hq0 : |a / b| ^ 2 = 3 := by
      rw [sq_abs]
      exact hq
    have hirr : Irrational (Real.sqrt 3) := by
      have h3 := Nat.prime_three.irrational_sqrt
      simpa using h3
    apply hirr
    refine ⟨|a / b|, ?_⟩
    have habs : (0 : ℝ) ≤ ((|a / b| : ℚ) : ℝ) := by positivity
    have h2 : ((|a / b| : ℚ) : ℝ) ^ 2 = 3 := by exact_mod_cast hq0
    calc ((|a / b| : ℚ) : ℝ) = Real.sqrt (((|a / b| : ℚ) : ℝ) ^ 2) :=
          (Real.sqrt_sq habs).symm
      _ = Real.sqrt 3 := by rw [h2]

/-- `val` commutes with the inverse (junk values agree: both sides are `0`
on the degenerate denominator). -/
theorem val_inv (x : Q3) : x.inv.val = (x.val)⁻¹ := by
  by_cases hd : x.a ^ 2 - 3 * x.b ^ 2 = 0
  · obtain ⟨ha, hb⟩ := discr_eq_zero hd
    simp [inv, val, ha, hb]
  · have hd' : ((x.a : ℝ) ^ 2 - 3 * (x.b : ℝ) ^ 2) ≠ 0 := by exact_mod_cast hd
    have hvx : x.val ≠ 0 := by
      intro h0
      apply hd'
      have hcp := conj_prod (x.a : ℝ) (x.b : ℝ)
      have h0' : (x.a : ℝ) + (x.b : ℝ) * Real.sqrt 3 = 0 := h0
      rw [h0', zero_mul] at hcp
      linarith [hcp]
    refine (eq_inv_of_mul_eq_one_right ?_)
    have hval : x.val = (x.a : ℝ) + (x.b : ℝ) * Real.sqrt 3 := rfl
    simp only [inv, val, hval]
    push_cast
    field_simp
    linear_combination (-((x.b : ℝ) ^ 2)) * sq_sqrt3

theorem val_div (x y : Q3) : (x.div y).val = x.val / y.val := by
  rw [div, val_mul, val_inv, div_eq_mul_inv]

end Q3

/-- Absolute value on `Q3` (used for the shapely polygon area, which is the
absolute value of the signed shoelace area). -/
def Q3.abs (x : Q3) : Q3 := if x.nonnegB then x else x.neg

/-- A planar or geographic point `(x, y)` with coordinates in `ℚ[√3]`. -/
abbrev Pt := Q3 × Q3

/-- The projection adapter of `make_hex_grid`: the pair of transforms built
from `pyproj.Transformer.from_crs` (`to_merc` : EPSG:4326 → EPSG:3857 and
`to_wgs` : EPSG:3857 → EPSG:4326).  It is kept abstract; concrete
evaluations use `projId`. -/
structure Proj where
  to_merc : Pt → Pt
  to_wgs : Pt → Pt

/-- The identity projection, used to evaluate the grid generator on concrete
inputs (it preserves the planar lattice geometry exactly). -/
def projId : Proj := ⟨fun p => p, fun p => p⟩

/-- Failure conditions of the Python run.  `zeroDivision` models Python's
`ZeroDivisionError`; `invalidParameter` models the invalid-parameter
condition that the specification requires for a non-positive radius (the
source never raises it). -/
inductive PyError where
  | zeroDivision
  | invalidParameter
deriving DecidableEq, Repr

/-- `pad = hex_radius_m * 2` in `make_hex_grid`. -/
def hexPad (R : ℚ) : ℚ := R * 2

/-- The projected, padded lower-left corner `(minx_m, miny_m)` after
`minx_m -= pad; miny_m -= pad`. -/
def gridMin (proj : Proj) (bounds : ℚ × ℚ × ℚ × ℚ) (R : ℚ) : Pt :=
  let m := proj.to_merc (Q3.ofQ bounds.1, Q3.ofQ bounds.2.1)
  (m.1.sub (Q3.ofQ (hexPad R)), m.2.sub (Q3.ofQ (hexPad R)))

/-- The projected, padded upper-right corner `(maxx_m, maxy_m)` after
`maxx_m += pad; maxy_m += pad`. -/
def gridMax (proj : Proj) (bounds : ℚ × ℚ × ℚ × ℚ) (R : ℚ) : Pt :=
  let m := proj.to_merc (Q3.ofQ bounds.2.2.1, Q3.ofQ bounds.2.2.2)
  (m.1.add (Q3.ofQ (hexPad R)), m.2.add (Q3.ofQ (hexPad R)))

/-- Horizontal center spacing `dx = R * math.sqrt(3)`. -/
def hexDx (R : ℚ) : Q3 := (Q3.ofQ R).mul Q3.sqrt3

/-- Vertical center spacing `dy = R * 1.5`. -/
def hexDy (R : ℚ) : Q3 := Q3.ofQ (R * (3 / 2))

/-- `cols = int(math.ceil((maxx_m - minx_m) / dx)) + 1`. -/
def hexCols (proj : Proj) (bounds : ℚ × ℚ × ℚ × ℚ) (R : ℚ) : ℤ :=
  Q3.ceil (((gridMax proj bounds R).1.sub (gridMin proj bounds R).1).div (hexDx R)) + 1

/-- `rows = int(math.ceil((maxy_m - miny_m) / dy)) + 1`. -/
def hexRows (proj : Proj) (bounds : ℚ × ℚ × ℚ × ℚ) (R : ℚ) : ℤ :=
  Q3.ceil (((gridMax proj bounds R).2.sub (gridMin proj bounds R).2).div (hexDy R)) + 1

/-- The cell center
`cx = minx_m + c*dx + (dx/2 if r % 2 else 0)`, `cy = miny_m + r*dy`. -/
def hexCenter (proj : Proj) (bounds : ℚ × ℚ × ℚ × ℚ) (R : ℚ) (r c : ℕ) : Pt :=
  let mn := gridMin proj bounds R
  ((mn.1.add ((Q3.ofQ (c : ℚ)).mul (hexDx R))).add
      (if r % 2 = 1 then (hexDx R).div (Q3.ofQ 2) else Q3.ofQ 0),
    mn.2.add ((Q3.ofQ (r : ℚ)).mul (hexDy R)))

/-- `math.cos(math.pi / 3 * i)` for `i = 0..5`, expressed exactly in
`ℚ[√3]`. -/
def hexCos : ℕ → Q3
  | 0 => ⟨1, 0⟩
  | 1 => ⟨1 / 2, 0⟩
  | 2 => ⟨-1 / 2, 0⟩
  | 3 => ⟨-1, 0⟩
  | 4 => ⟨-1 / 2, 0⟩
  | _ => ⟨1 / 2, 0⟩

/-- `math.sin(math.pi / 3 * i)` for `i = 0..5`, expressed exactly in
`ℚ[√3]` (`sin(60°) = √3/2`). -/
def hexSin : ℕ → Q3
  | 0 => ⟨0, 0⟩
  | 1 => ⟨0, 1 / 2⟩
  | 2 => ⟨0, 1 / 2⟩
  | 3 => ⟨0, 0⟩
  | 4 => ⟨0, -1 / 2⟩
  | _ => ⟨0, -1 / 2⟩

/-- One polygon vertex:
`px = cx + R*cos(ang); py = cy + R*sin(ang)` followed by
`transform(to_wgs, Point(px, py))`. -/
def hexVertex (proj : Proj) (center : Pt) (R : ℚ) (i : ℕ) : Pt :=
  proj.to_wgs (center.1.add ((Q3.ofQ R).mul (hexCos i)),
    center.2.add ((Q3.ofQ R).mul (hexSin i)))

/-- The six-vertex polygon of one cell (`verts` loop of `make_hex_grid`). -/
def hexPoly (proj : Proj) (center : Pt) (R : ℚ) : List Pt :=
  (List.range 6).map (hexVertex proj center R)

/-- The full grid: the nested `for r in range(rows): for c in range(cols)`
loop, appending polygons in row-major order. -/
def make_hex_grid (proj : Proj) (bounds : ℚ × ℚ × ℚ × ℚ) (R : ℚ) : List (List Pt) :=
  (List.range (hexRows proj bounds R).toNat).flatMap fun r =>
    (List.range (hexCols proj bounds R).toNat).map fun c =>
      hexPoly proj (hexCenter proj bounds R r c) R

/-- `make_hex_grid` including its Python failure mode: when `R = 0` the
divisions `(maxx_m - minx_m) / dx` raise `ZeroDivisionError` (`dx = R*√3`
is the zero float exactly when `R` is); no other validation exists in the
source. -/
def make_hex_grid_checked (proj : Proj) (bounds : ℚ × ℚ × ℚ × ℚ) (R : ℚ) :
    Except PyError (List (List Pt)) :=
  if R = 0 then .error .zeroDivision else .ok (make_hex_grid proj bounds R)

/-- One loaded point: geographic coordinates plus the value of the optional
weight column at this point (`none` models a missing value / NaN). -/
structure InputPoint where
  x : ℚ
  y : ℚ
  weight : Option ℚ
deriving DecidableEq, Repr

/-- The point geometry as used by the spatial join. -/
def InputPoint.geom (p : InputPoint) : Pt := (Q3.ofQ p.x, Q3.ofQ p.y)

/-- `pts.total_bounds`: `(minx, miny, maxx, maxy)` over all loaded points
(the empty case is never reached by `main`, which returns first). -/
def total_bounds : List InputPoint → ℚ × ℚ × ℚ × ℚ
  | [] => (0, 0, 0, 0)
  | p :: rest =>
      (rest.foldl (fun m q => min m q.x) p.x,
        rest.foldl (fun m q => min m q.y) p.y,
        rest.foldl (fun m q => max m q.x) p.x,
        rest.foldl (fun m q => max m q.y) p.y)

/-- The directed edge list of a polygon (consecutive vertices, wrapping
around). -/
def polyEdges (poly : List Pt) : List (Pt × Pt) := poly.zip (poly.rotate 1)

/-- 2-D cross product of `a - o` and `p - o`. -/
def cross (o a p : Pt) : Q3 :=
  ((a.1.sub o.1).mul (p.2.sub o.2)).sub ((a.2.sub o.2).mul (p.1.sub o.1))

/-- The `predicate="within"` test of `gpd.sjoin` for a point against one of
the generated polygons.  The generated hexagons are convex with
counter-clockwise vertices, so the GEOS `within` predicate (interior
containment: a boundary point is NOT within) is the strict half-plane test
on every edge. -/
def withinB (p : Pt) (poly : List Pt) : Bool :=
  (polyEdges poly).all fun e => Q3.posB (cross e.1 e.2 p)

/-- Closed containment (interior or boundary) for a convex CCW polygon. -/
def coveredB (p : Pt) (poly : List Pt) : Bool :=
  (polyEdges poly).all fun e => Q3.nonnegB (cross e.1 e.2 p)

/-- A point lying exactly on the boundary of a convex CCW polygon: inside
the closed region, with at least one edge line through it. -/
def onBoundaryB (p : Pt) (poly : List Pt) : Bool :=
  coveredB p poly && (polyEdges poly).any fun e => decide (cross e.1 e.2 p = Q3.ofQ 0)

/-- Aggregated `value` of one hexagon: sum over the rows of the inner
spatial join that fall in this hexagon.  With `useWeights` (the source
condition `args.weight_field and args.weight_field in joined.columns`) each
matched point contributes its weight, a missing value contributing `0`
(pandas `groupby(...).sum()` skips NaN); otherwise each matched point
contributes `1` (`groupby(...).size()`), and hexagons with no match get `0`
from `merge(..., how="left").fillna({"value": 0})`. -/
def hexValue (pts : List InputPoint) (useWeights : Bool) (poly : List Pt) : ℚ :=
  ((pts.filter fun p => withinB p.geom poly).map
    fun p => if useWeights then p.weight.getD 0 else 1).sum

/-- Twice the signed shoelace area of a polygon. -/
def shoelace2 (poly : List Pt) : Q3 :=
  ((polyEdges poly).map fun e => (e.1.1.mul e.2.2).sub (e.2.1.mul e.1.2)).foldr
    Q3.add (Q3.ofQ 0)

/-- `merc.geometry.area / 1_000_000.0`: the polygon is reprojected to
planar meters and its (unsigned) area taken, in km². -/
def polyAreaKm2 (proj : Proj) (poly : List Pt) : Q3 :=
  ((Q3.abs (shoelace2 (poly.map proj.to_merc))).div (Q3.ofQ 2)).div (Q3.ofQ 1000000)

/-- `density_per_km2`: `value / area_km2` when `area_km2 > 0`, else
`0.0`. -/
def densityPerKm2 (value : ℚ) (area : Q3) : Q3 :=
  if Q3.posB area then (Q3.ofQ value).div area else Q3.ofQ 0

/-- One exported feature with its attributes
`hex_id, value, area_km2, density_per_km2` and polygon geometry. -/
structure HexRecord where
  hex_id : ℕ
  value : ℚ
  area_km2 : Q3
  density_per_km2 : Q3
  geometry : List Pt
deriving DecidableEq, Repr

/-- The exported feature list: `reset_index(names="hex_id")` enumerates the
grid polygons in generation order, aggregation and density attributes are
attached, and every hexagon is kept. -/
def build_records (proj : Proj) (pts : List InputPoint) (R : ℚ) (useWeights : Bool) :
    List HexRecord :=
  let hexes := make_hex_grid proj (total_bounds pts) R
  (List.range hexes.length).map fun k =>
    let poly := hexes.getD k []
    let v := hexValue pts useWeights poly
    let a := polyAreaKm2 proj poly
    ⟨k, v, a, densityPerKm2 v a, poly⟩

/-- The computation `main` performs after the non-empty check, including
the `R = 0` failure inherited from `make_hex_grid`. -/
def compute_hotspots (proj : Proj) (pts : List InputPoint) (R : ℚ) (useWeights : Bool) :
    Except PyError (List HexRecord) :=
  match make_hex_grid_checked proj (total_bounds pts) R with
  | .error e => .error e
  | .ok _ => .ok (build_records proj pts R useWeights)

/-- The whole run of `main`: `none` models the early `return` (no output
file written) when no usable point was loaded; otherwise the (possibly
failing) computation runs and its record list is written out. -/
def main_run (proj : Proj) (pts : List InputPoint) (R : ℚ) (useWeights : Bool) :
    Option (Except PyError (List HexRecord)) :=
  if pts.isEmpty then none else some (compute_hotspots proj pts R useWeights)

/-- The error of a run, if it failed. -/
def runError {α : Type} : Except PyError α → Option PyError
  | .error e => some e
  | .ok _ => none

/-- Length of a row-major nested loop. -/
theorem length_range_flatMap {α : Type} (n m : ℕ) (f : ℕ → ℕ → α) :
    ((List.range n).flatMap fun r => (List.range m).map (f r)).length = n * m := by
  induction n with
  | zero => simp
  | succ k ih =>
    rw [List.range_succ, List.flatMap_append, List.length_append, ih]
    simp [Nat.succ_mul]

/-- Indexing a row-major nested loop at `r * m + c`. -/
theorem getElem?_range_flatMap {α : Type} (n m : ℕ) (f : ℕ → ℕ → α) (r c : ℕ)
    (hr : r < n) (hc : c < m) :
    ((List.range n).flatMap fun r => (List.range m).map (f r))[r * m + c]? = some (f r c) := by
  induction n with
  | zero => omega
  | succ k ih =>
    rw [List.range_succ, List.flatMap_append, List.getElem?_append]
    rcases Nat.lt_or_ge r k with h | h
    · have hidx : r * m + c < k * m := by
        calc r * m + c < r * m + m := by omega
          _ = (r + 1) * m := by ring
          _ ≤ k * m := Nat.mul_le_mul_right m h
      rw [if_pos (by rw [length_range_flatMap]; exact hidx)]
      exact ih h
    · have hrk : r = k := by omega
      subst hrk
      have hge : ¬ (r * m + c <
          ((List.range r).flatMap fun r => (List.range m).map (f r)).length) := by
        rw [length_range_flatMap]
        omega
      rw [if_neg hge, length_range_flatMap]
      simp only [List.flatMap_singleton, Nat.add_sub_cancel_left, List.getElem?_map]
      rw [List.getElem?_range hc]
      rfl

/-- The grid has `rows * cols` polygons. -/
theorem make_hex_grid_length (proj : Proj) (bounds : ℚ × ℚ × ℚ × ℚ) (R : ℚ) :
    (make_hex_grid proj bounds R).length =
      (hexRows proj bounds R).toNat * (hexCols proj bounds R).toNat :=
  length_range_flatMap _ _ _

/-- The polygon at row-major index `r * cols + c` is the hexagon of cell
`(r, c)`. -/
theorem make_hex_grid_getElem (proj : Proj) (bounds : ℚ × ℚ × ℚ × ℚ) (R : ℚ)
    (r c : ℕ) (hr : r < (hexRows proj bounds R).toNat)
    (hc : c < (hexCols proj bounds R).toNat) :
    (make_hex_grid proj bounds R)[r * (hexCols proj bounds R).toNat + c]? =
      some (hexPoly proj (hexCenter proj bounds R r c) R) :=
  getElem?_range_flatMap _ _ _ r c hr hc

/-- Every polygon of the grid is the hexagon of some cell `(r, c)`. -/
theorem mem_make_hex_grid {proj : Proj} {bounds : ℚ × ℚ × ℚ × ℚ} {R : ℚ}
    {poly : List Pt} (h : poly ∈ make_hex_grid proj bounds R) :
    ∃ r c, r < (hexRows proj bounds R).toNat ∧ c < (hexCols proj bounds R).toNat ∧
      poly = hexPoly proj (hexCenter proj bounds R r c) R := by
  rw [make_hex_grid, List.mem_flatMap] at h
  obtain ⟨r, hr, hmem⟩ := h
  rw [List.mem_map] at hmem
  obtain ⟨c, hc, hpoly⟩ := hmem
  exact ⟨r, c, List.mem_range.mp hr, List.mem_range.mp hc, hpoly.symm⟩
theorem val_hexCos (i : ℕ) (hi : i < 6) :
    (hexCos i).val = Real.cos (i * Real.pi / 3) := by
  interval_cases i
  · simp [hexCos, Q3.val]
  · rw [show ((1:ℕ):ℝ) * Real.pi / 3 = Real.pi / 3 by push_cast; ring, Real.cos_pi_div_three]
    simp [hexCos, Q3.val]
  · rw [show ((2:ℕ):ℝ) * Real.pi / 3 = Real.pi - Real.pi / 3 by push_cast; ring,
      Real.cos_pi_sub, Real.cos_pi_div_three]
    simp [hexCos, Q3.val]
    norm_num
  · rw [show ((3:ℕ):ℝ) * Real.pi / 3 = Real.pi by push_cast; ring, Real.cos_pi]
    simp [hexCos, Q3.val]
  · rw [show ((4:ℕ):ℝ) * Real.pi / 3 = Real.pi + Real.pi / 3 by push_cast; ring,
      Real.cos_add, Real.cos_pi, Real.sin_pi, Real.cos_pi_div_three]
    simp [hexCos, Q3.val]
    norm_num
  · rw [show ((5:ℕ):ℝ) * Real.pi / 3 = 2 * Real.pi - Real.pi / 3 by push_cast; ring,
      Real.cos_sub, Real.cos_two_pi, Real.sin_two_pi, Real.cos_pi_div_three]
    simp [hexCos, Q3.val]

theorem val_hexSin (i : ℕ) (hi : i < 6) :
    (hexSin i).val = Real.sin (i * Real.pi / 3) := by
  interval_cases i
  · simp [hexSin, Q3.val]
  · rw [show ((1:ℕ):ℝ) * Real.pi / 3 = Real.pi / 3 by push_cast; ring, Real.sin_pi_div_three]
    simp [hexSin, Q3.val]
    ring
  · rw [show ((2:ℕ):ℝ) * Real.pi / 3 = Real.pi - Real.pi / 3 by push_cast; ring,
      Real.sin_pi_sub, Real.sin_pi_div_three]
    simp [hexSin, Q3.val]
    ring
  · rw [show ((3:ℕ):ℝ) * Real.pi / 3 = Real.pi by push_cast; ring, Real.sin_pi]
    simp [hexSin, Q3.val]
  · rw [show ((4:ℕ):ℝ) * Real.pi / 3 = Real.pi + Real.pi / 3 by push_cast; ring,
      Real.sin_add, Real.cos_pi, Real.sin_pi, Real.sin_pi_div_three]
    simp [hexSin, Q3.val]
    ring
  · rw [show ((5:ℕ):ℝ) * Real.pi / 3 = 2 * Real.pi - Real.pi / 3 by push_cast; ring,
      Real.sin_sub, Real.cos_two_pi, Real.sin_two_pi, Real.sin_pi_div_three]
    simp [hexSin, Q3.val]
    ring

theorem hexCos_sq_add_hexSin_sq (i : ℕ) (hi : i < 6) :
    ((hexCos i).mul (hexCos i)).add ((hexSin i).mul (hexSin i)) = Q3.ofQ 1 := by
  interval_cases i <;> decide
/-- The planar (pre-reprojection) vertex `(cx + R*cos(ang), cy + R*sin(ang))`. -/
def hexVertexPlanar (center : Pt) (R : ℚ) (i : ℕ) : Pt :=
  (center.1.add ((Q3.ofQ R).mul (hexCos i)), center.2.add ((Q3.ofQ R).mul (hexSin i)))

theorem hexVertex_eq (proj : Proj) (center : Pt) (R : ℚ) (i : ℕ) :
    hexVertex proj center R i = proj.to_wgs (hexVertexPlanar center R i) := rfl

/-- The planar hexagon polygon of one cell. -/
def hexPolyPlanar (center : Pt) (R : ℚ) : List Pt :=
  (List.range 6).map (hexVertexPlanar center R)

theorem hexPoly_eq_map (proj : Proj) (center : Pt) (R : ℚ) :
    hexPoly proj center R = (hexPolyPlanar center R).map proj.to_wgs := by
  simp only [hexPoly, hexPolyPlanar, List.map_map]
  rfl

/-- Twice the signed area of every generated hexagon is `3√3·R²`
(in particular it does not depend on the cell center, and it is positive for
every nonzero radius). -/
theorem shoelace2_hexPolyPlanar (cx cy : Q3) (R : ℚ) :
    shoelace2 (hexPolyPlanar (cx, cy) R) = ⟨0, 3 * R ^ 2⟩ := by
  obtain ⟨cxa, cxb⟩ := cx
  obtain ⟨cya, cyb⟩ := cy
  show Q3.mk _ _ = _
  rw [Q3.mk.injEq]
  simp only [hexVertexPlanar, hexCos, hexSin, Q3.add, Q3.mul, Q3.sub, Q3.ofQ,
    List.map, List.zipWith, List.foldr, List.append, List.reverse, List.reverseAux]
  constructor <;> ring
/-- Under a projection pair that round-trips (`to_merc ∘ to_wgs = id`, as
for the actual EPSG:4326/3857 transformer pair), the exported area of every
generated hexagon is `3√3/2·R²` m² expressed in km². -/
theorem polyAreaKm2_hexPoly (proj : Proj)
    (hproj : ∀ q, proj.to_merc (proj.to_wgs q) = q) (center : Pt) (R : ℚ) :
    polyAreaKm2 proj (hexPoly proj center R) = ⟨0, 3 * R ^ 2 / 2000000⟩ := by
  obtain ⟨cx, cy⟩ := center
  have hmap : (hexPoly proj (cx, cy) R).map proj.to_merc = hexPolyPlanar (cx, cy) R := by
    rw [hexPoly_eq_map, List.map_map]
    have hcongr : ∀ x ∈ hexPolyPlanar (cx, cy) R, (proj.to_merc ∘ proj.to_wgs) x = id x :=
      fun x _ => hproj x
    rw [List.map_congr_left hcongr, List.map_id]
  rw [polyAreaKm2, hmap, shoelace2_hexPolyPlanar]
  have h0 : (0 : ℚ) ≤ 3 * R ^ 2 := by positivity
  have hb : Q3.nonnegB ⟨0, 3 * R ^ 2⟩ = true := by
    simp only [Q3.nonnegB, Bool.or_eq_true, Bool.and_eq_true, decide_eq_true_eq]
    exact Or.inl (Or.inl ⟨le_refl 0, h0⟩)
  have habs : Q3.abs ⟨0, 3 * R ^ 2⟩ = ⟨0, 3 * R ^ 2⟩ := by
    simp [Q3.abs, hb]
  rw [habs]
  show Q3.mk _ _ = _
  rw [Q3.mk.injEq]
  simp only [Q3.div, Q3.inv, Q3.mul, Q3.ofQ]
  constructor <;> ring
theorem val_hexDx (R : ℚ) : (hexDx R).val = (R : ℝ) * Real.sqrt 3 := by
  rw [hexDx, Q3.val_mul, Q3.val_ofQ, Q3.val_sqrt3]

theorem val_hexDy (R : ℚ) : (hexDy R).val = (R : ℝ) * (3 / 2 : ℝ) := by
  rw [hexDy, Q3.val_ofQ]
  push_cast
  ring

/-- C4: the projected bounding box is padded by `2R` on each side, the
center spacings are `dx = R√3` and `dy = 1.5R`, and the generator lays out
`⌈padded_width/dx⌉ + 1` columns and `⌈padded_height/dy⌉ + 1` rows. -/
theorem make_hex_grid_layout (proj : Proj) (bounds : ℚ × ℚ × ℚ × ℚ) (R : ℚ)
    (hR : 0 < R) :
    gridMin proj bounds R =
      ((proj.to_merc (Q3.ofQ bounds.1, Q3.ofQ bounds.2.1)).1.sub (Q3.ofQ (2 * R)),
        (proj.to_merc (Q3.ofQ bounds.1, Q3.ofQ bounds.2.1)).2.sub (Q3.ofQ (2 * R))) ∧
    gridMax proj bounds R =
      ((proj.to_merc (Q3.ofQ bounds.2.2.1, Q3.ofQ bounds.2.2.2)).1.add (Q3.ofQ (2 * R)),
        (proj.to_merc (Q3.ofQ bounds.2.2.1, Q3.ofQ bounds.2.2.2)).2.add (Q3.ofQ (2 * R))) ∧
    hexCols proj bounds R =
      ⌈((gridMax proj bounds R).1.val - (gridMin proj bounds R).1.val) /
        ((R : ℝ) * Real.sqrt 3)⌉ + 1 ∧
    hexRows proj bounds R =
      ⌈((gridMax proj bounds R).2.val - (gridMin proj bounds R).2.val) /
        ((R : ℝ) * (3 / 2 : ℝ))⌉ + 1 ∧
    (make_hex_grid proj bounds R).length =
      (hexRows proj bounds R).toNat * (hexCols proj bounds R).toNat := by
  refine ⟨?_, ?_, ?_, ?_, make_hex_grid_length proj bounds R⟩
  · simp [gridMin, hexPad, mul_comm]
  · simp [gridMax, hexPad, mul_comm]
  · rw [hexCols, Q3.ceil_eq, Q3.val_div, val_hexDx, Q3.val_sub]
  · rw [hexRows, Q3.ceil_eq, Q3.val_div, val_hexDy, Q3.val_sub]

/-- Witness for C4 at `bounds = (0,0,1,1)`, `R = 1`, identity projection. -/
theorem make_hex_grid_layout_witness :
    0 < (1 : ℚ) ∧
    (gridMin projId (0, 0, 1, 1) 1 =
      ((projId.to_merc (Q3.ofQ 0, Q3.ofQ 0)).1.sub (Q3.ofQ (2 * 1)),
        (projId.to_merc (Q3.ofQ 0, Q3.ofQ 0)).2.sub (Q3.ofQ (2 * 1))) ∧
    gridMax projId (0, 0, 1, 1) 1 =
      ((projId.to_merc (Q3.ofQ 1, Q3.ofQ 1)).1.add (Q3.ofQ (2 * 1)),
        (projId.to_merc (Q3.ofQ 1, Q3.ofQ 1)).2.add (Q3.ofQ (2 * 1))) ∧
    hexCols projId (0, 0, 1, 1) 1 =
      ⌈(((gridMax projId (0, 0, 1, 1) 1).1.val - (gridMin projId (0, 0, 1, 1) 1).1.val) /
        (((1 : ℚ) : ℝ) * Real.sqrt 3))⌉ + 1 ∧
    hexRows projId (0, 0, 1, 1) 1 =
      ⌈(((gridMax projId (0, 0, 1, 1) 1).2.val - (gridMin projId (0, 0, 1, 1) 1).2.val) /
        (((1 : ℚ) : ℝ) * (3 / 2 : ℝ)))⌉ + 1 ∧
    (make_hex_grid projId (0, 0, 1, 1) 1).length =
      (hexRows projId (0, 0, 1, 1) 1).toNat * (hexCols projId (0, 0, 1, 1) 1).toNat) :=
  ⟨by norm_num, make_hex_grid_layout projId (0, 0, 1, 1) 1 (by norm_num)⟩
/-- Each planar vertex lies at squared planar distance `R²` from its cell
center. -/
theorem hexVertex_dist_sq (ctr : Pt) (R : ℚ) (i : ℕ) (hi : i < 6) :
    (((hexVertexPlanar ctr R i).1.sub ctr.1).mul ((hexVertexPlanar ctr R i).1.sub ctr.1)).add
      (((hexVertexPlanar ctr R i).2.sub ctr.2).mul ((hexVertexPlanar ctr R i).2.sub ctr.2)) =
      Q3.ofQ (R ^ 2) := by
  obtain ⟨⟨cxa, cxb⟩, ⟨cya, cyb⟩⟩ := ctr
  interval_cases i <;>
    (show Q3.mk _ _ = _
     rw [Q3.mk.injEq]
     simp only [hexVertexPlanar, hexCos, hexSin, Q3.add, Q3.sub, Q3.mul, Q3.ofQ]
     constructor <;> ring)

/-- Odd rows are offset horizontally by `dx/2` relative to even rows (same
column, same vertical formula). -/
theorem hexCenter_odd_offset (proj : Proj) (bounds : ℚ × ℚ × ℚ × ℚ) (R : ℚ) (k c : ℕ) :
    (hexCenter proj bounds R (2 * k + 1) c).1 =
      ((hexCenter proj bounds R (2 * k) c).1.add ((hexDx R).div (Q3.ofQ 2))) := by
  have hodd : (2 * k + 1) % 2 = 1 := by omega
  have heven : (2 * k) % 2 = 0 := by omega
  simp only [hexCenter, hodd, heven, if_pos, if_neg, Nat.zero_ne_one, reduceCtorEq]
  norm_num
  show Q3.mk _ _ = _
  rw [Q3.mk.injEq]
  simp only [Q3.add, Q3.div, Q3.inv, Q3.mul, Q3.ofQ, hexDx, Q3.sqrt3]
  constructor <;> ring

/-- C5: the polygon of cell `(r, c)` sits at row-major index `r*cols + c`;
its `i`-th vertex is the reprojection to geographic degrees of the planar
point at angle `60°·i` and planar distance `R` from the cell center; and
odd rows are horizontally offset by `dx/2` relative to even rows. -/
theorem hex_cell_vertex_spec (proj : Proj) (bounds : ℚ × ℚ × ℚ × ℚ) (R : ℚ)
    (r c i : ℕ) (hr : r < (hexRows proj bounds R).toNat)
    (hc : c < (hexCols proj bounds R).toNat) (hi : i < 6) :
    (make_hex_grid proj bounds R)[r * (hexCols proj bounds R).toNat + c]? =
      some (hexPoly proj (hexCenter proj bounds R r c) R) ∧
    (hexPoly proj (hexCenter proj bounds R r c) R)[i]? =
      some (proj.to_wgs (hexVertexPlanar (hexCenter proj bounds R r c) R i)) ∧
    (hexCos i).val = Real.cos (i * Real.pi / 3) ∧
    (hexSin i).val = Real.sin (i * Real.pi / 3) ∧
    (((hexVertexPlanar (hexCenter proj bounds R r c) R i).1.sub
        (hexCenter proj bounds R r c).1).mul
      ((hexVertexPlanar (hexCenter proj bounds R r c) R i).1.sub
        (hexCenter proj bounds R r c).1)).add
      (((hexVertexPlanar (hexCenter proj bounds R r c) R i).2.sub
          (hexCenter proj bounds R r c).2).mul
        ((hexVertexPlanar (hexCenter proj bounds R r c) R i).2.sub
          (hexCenter proj bounds R r c).2)) = Q3.ofQ (R ^ 2) ∧
    (∀ k c2, (hexCenter proj bounds R (2 * k + 1) c2).1 =
      ((hexCenter proj bounds R (2 * k) c2).1.add ((hexDx R).div (Q3.ofQ 2)))) := by
  refine ⟨make_hex_grid_getElem proj bounds R r c hr hc, ?_, val_hexCos i hi, val_hexSin i hi,
    hexVertex_dist_sq _ R i hi, fun k c2 => hexCenter_odd_offset proj bounds R k c2⟩
  rw [hexPoly, List.getElem?_map, List.getElem?_range hi]
  rfl

/-- Witness for C5 at cell `(1, 1)`, vertex `1`, on the grid of
`bounds = (0,0,1,1)`, `R = 1`, identity projection. -/
theorem hex_cell_vertex_spec_witness :
    (1 < (hexRows projId (0, 0, 1, 1) 1).toNat ∧
     1 < (hexCols projId (0, 0, 1, 1) 1).toNat ∧
     1 < 6) ∧
    ((make_hex_grid projId (0, 0, 1, 1) 1)[1 * (hexCols projId (0, 0, 1, 1) 1).toNat + 1]? =
      some (hexPoly projId (hexCenter projId (0, 0, 1, 1) 1 1 1) 1) ∧
    (hexPoly projId (hexCenter projId (0, 0, 1, 1) 1 1 1) 1)[1]? =
      some (projId.to_wgs (hexVertexPlanar (hexCenter projId (0, 0, 1, 1) 1 1 1) 1 1)) ∧
    (hexCos 1).val = Real.cos (((1 : ℕ) : ℝ) * Real.pi / 3) ∧
    (hexSin 1).val = Real.sin (((1 : ℕ) : ℝ) * Real.pi / 3) ∧
    (((hexVertexPlanar (hexCenter projId (0, 0, 1, 1) 1 1 1) 1 1).1.sub
        (hexCenter projId (0, 0, 1, 1) 1 1 1).1).mul
      ((hexVertexPlanar (hexCenter projId (0, 0, 1, 1) 1 1 1) 1 1).1.sub
        (hexCenter projId (0, 0, 1, 1) 1 1 1).1)).add
      (((hexVertexPlanar (hexCenter projId (0, 0, 1, 1) 1 1 1) 1 1).2.sub
          (hexCenter projId (0, 0, 1, 1) 1 1 1).2).mul
        ((hexVertexPlanar (hexCenter projId (0, 0, 1, 1) 1 1 1) 1 1).2.sub
          (hexCenter projId (0, 0, 1, 1) 1 1 1).2)) = Q3.ofQ (1 ^ 2) ∧
    (∀ k c2, (hexCenter projId (0, 0, 1, 1) 1 (2 * k + 1) c2).1 =
      ((hexCenter projId (0, 0, 1, 1) 1 (2 * k) c2).1.add ((hexDx 1).div (Q3.ofQ 2))))) :=
  ⟨⟨by decide, by decide, by decide⟩,
    hex_cell_vertex_spec projId (0, 0, 1, 1) 1 1 1 1 (by decide) (by decide) (by decide)⟩

theorem withinB_covered {p : Pt} {poly : List Pt} (h : withinB p poly = true) :
    coveredB p poly = true := by
  rw [withinB, List.all_eq_true] at h
  rw [coveredB, List.all_eq_true]
  intro e he
  have hp := h e he
  rw [Q3.posB_iff] at hp
  rw [Q3.nonnegB_iff]
  exact hp.le

/-- A hexagon with no joined point keeps `value = 0`. -/
theorem hexValue_eq_zero {pts : List InputPoint} {u : Bool} {poly : List Pt}
    (h : ∀ p ∈ pts, withinB p.geom poly = false) : hexValue pts u poly = 0 := by
  rw [hexValue]
  have hfil : pts.filter (fun p => withinB p.geom poly) = [] := by
    rw [List.filter_eq_nil_iff]
    intro p hp
    simp [h p hp]
  rw [hfil]
  rfl

/-- C9: the run exports exactly one record per generated hexagon, in
row-major generation order: record `k` carries `hex_id = k` and the `k`-th
polygon, and a hexagon containing no point keeps `value = 0`. -/
theorem export_records_spec (proj : Proj) (pts : List InputPoint) (R : ℚ) (u : Bool)
    (hR : R ≠ 0) :
    compute_hotspots proj pts R u = .ok (build_records proj pts R u) ∧
    (build_records proj pts R u).length =
      (make_hex_grid proj (total_bounds pts) R).length ∧
    ∀ k, k < (build_records proj pts R u).length →
      ∃ rec, (build_records proj pts R u)[k]? = some rec ∧
        rec.hex_id = k ∧
        rec.geometry = (make_hex_grid proj (total_bounds pts) R).getD k [] ∧
        ((∀ p ∈ pts, withinB p.geom rec.geometry = false) → rec.value = 0) := by
  refine ⟨?_, ?_, ?_⟩
  · rw [compute_hotspots, make_hex_grid_checked, if_neg hR]
  · rw [build_records]
    simp
  · intro k hk
    rw [build_records] at hk ⊢
    simp only [List.length_map, List.length_range] at hk
    refine ⟨{ hex_id := k,
              value := hexValue pts u ((make_hex_grid proj (total_bounds pts) R).getD k []),
              area_km2 := polyAreaKm2 proj ((make_hex_grid proj (total_bounds pts) R).getD k []),
              density_per_km2 :=
                densityPerKm2
                  (hexValue pts u ((make_hex_grid proj (total_bounds pts) R).getD k []))
                  (polyAreaKm2 proj ((make_hex_grid proj (total_bounds pts) R).getD k [])),
              geometry := (make_hex_grid proj (total_bounds pts) R).getD k [] }, ?_, rfl, rfl, ?_⟩
    · rw [List.getElem?_map, List.getElem?_range hk]
      rfl
    · intro h
      exact hexValue_eq_zero h

/-- Witness for C9 on a one-point run with `R = 1`. -/
theorem export_records_spec_witness :
    (1 : ℚ) ≠ 0 ∧
    (compute_hotspots projId [⟨0, 0, none⟩] 1 false =
      .ok (build_records projId [⟨0, 0, none⟩] 1 false) ∧
    (build_records projId [⟨0, 0, none⟩] 1 false).length =
      (make_hex_grid projId (total_bounds [⟨0, 0, none⟩]) 1).length ∧
    ∀ k, k < (build_records projId [⟨0, 0, none⟩] 1 false).length →
      ∃ rec, (build_records projId [⟨0, 0, none⟩] 1 false)[k]? = some rec ∧
        rec.hex_id = k ∧
        rec.geometry = (make_hex_grid projId (total_bounds [⟨0, 0, none⟩]) 1).getD k [] ∧
        ((∀ p ∈ [(⟨0, 0, none⟩ : InputPoint)], withinB p.geom rec.geometry = false) →
          rec.value = 0)) :=
  ⟨by norm_num, export_records_spec projId [⟨0, 0, none⟩] 1 false (by norm_num)⟩

/-- C6: with a valid radius, the run fails (early return, no output) exactly
when the loaded point set is empty; any non-empty point set always produces
an exported record list. -/
theorem main_run_fail_iff (proj : Proj) (pts : List InputPoint) (R : ℚ) (u : Bool)
    (hR : R ≠ 0) :
    (main_run proj pts R u = none ↔ pts = []) ∧
    (pts ≠ [] → main_run proj pts R u = some (.ok (build_records proj pts R u))) := by
  constructor
  · rw [main_run]
    rcases pts with _ | ⟨p, rest⟩
    · simp
    · simp [List.isEmpty]
  · intro h
    rw [main_run, if_neg (by simp [List.isEmpty_iff, h]),
      compute_hotspots, make_hex_grid_checked, if_neg hR]

/-- Witness for C6 on a one-point run with `R = 1`. -/
theorem main_run_fail_iff_witness :
    (1 : ℚ) ≠ 0 ∧
    ((main_run projId [⟨0, 0, none⟩] 1 false = none ↔ [(⟨0, 0, none⟩ : InputPoint)] = []) ∧
    ([(⟨0, 0, none⟩ : InputPoint)] ≠ [] →
      main_run projId [⟨0, 0, none⟩] 1 false =
        some (.ok (build_records projId [⟨0, 0, none⟩] 1 false)))) :=
  ⟨by norm_num, main_run_fail_iff projId [⟨0, 0, none⟩] 1 false (by norm_num)⟩

/-- C7: every exported record has area `3√3/2·R²` m² in km² (hence strictly
positive for any nonzero radius — the zero-area branch of the density rule
is unreachable for generated cells), its density is literally
`value / area_km2`, and the density rule returns `0` instead of dividing
whenever the area is not positive. -/
theorem density_branch_spec (proj : Proj) (pts : List InputPoint) (R : ℚ) (u : Bool)
    (hproj : ∀ q, proj.to_merc (proj.to_wgs q) = q) (hR : R ≠ 0)
    (rec : HexRecord) (hrec : rec ∈ build_records proj pts R u) :
    rec.area_km2 = ⟨0, 3 * R ^ 2 / 2000000⟩ ∧
    Q3.posB rec.area_km2 = true ∧
    0 < rec.area_km2.val ∧
    rec.density_per_km2 = (Q3.ofQ rec.value).div rec.area_km2 ∧
    (∀ v a, Q3.posB a = false → densityPerKm2 v a = Q3.ofQ 0) := by
  rw [build_records, List.mem_map] at hrec
  obtain ⟨k, hk, hrec⟩ := hrec
  rw [List.mem_range] at hk
  have hmem : (make_hex_grid proj (total_bounds pts) R).getD k [] ∈
      make_hex_grid proj (total_bounds pts) R := by
    rw [List.getD_eq_getElem _ _ hk]
    exact List.getElem_mem hk
  obtain ⟨r, c, hr, hc, hpoly⟩ := mem_make_hex_grid hmem
  have harea : polyAreaKm2 proj ((make_hex_grid proj (total_bounds pts) R).getD k []) =
      ⟨0, 3 * R ^ 2 / 2000000⟩ := by
    rw [hpoly]
    exact polyAreaKm2_hexPoly proj hproj _ R
  have hcpos : (0 : ℚ) < 3 * R ^ 2 / 2000000 := by positivity
  have hval : (0 : ℝ) < (Q3.mk 0 (3 * R ^ 2 / 2000000)).val := by
    have : (Q3.mk 0 (3 * R ^ 2 / 2000000)).val
        = ((3 * R ^ 2 / 2000000 : ℚ) : ℝ) * Real.sqrt 3 := by
      simp [Q3.val]
    rw [this]
    have hc' : (0 : ℝ) < ((3 * R ^ 2 / 2000000 : ℚ) : ℝ) := by exact_mod_cast hcpos
    exact mul_pos hc' Q3.sqrt3_pos
  have hpos : Q3.posB ⟨0, 3 * R ^ 2 / 2000000⟩ = true := (Q3.posB_iff _).mpr hval
  subst hrec
  refine ⟨harea, ?_, ?_, ?_, ?_⟩
  · show Q3.posB (polyAreaKm2 proj _) = true
    rw [harea]
    exact hpos
  · show 0 < (polyAreaKm2 proj _).val
    rw [harea]
    exact hval
  · show densityPerKm2 _ _ = (Q3.ofQ _).div (polyAreaKm2 proj _)
    rw [densityPerKm2, harea, hpos]
    simp
  · intro v a ha
    rw [densityPerKm2, ha]
    simp

/-- Witness for C7: the first exported record of a one-point run. -/
theorem density_branch_spec_witness :
    ((∀ q, projId.to_merc (projId.to_wgs q) = q) ∧ (1 : ℚ) ≠ 0 ∧
      (build_records projId [⟨0, 0, none⟩] 1 false).getD 0 ⟨0, 0, ⟨0, 0⟩, ⟨0, 0⟩, []⟩ ∈
        build_records projId [⟨0, 0, none⟩] 1 false) ∧
    (((build_records projId [⟨0, 0, none⟩] 1 false).getD 0
        ⟨0, 0, ⟨0, 0⟩, ⟨0, 0⟩, []⟩).area_km2 = ⟨0, 3 * 1 ^ 2 / 2000000⟩ ∧
    Q3.posB (((build_records projId [⟨0, 0, none⟩] 1 false).getD 0
        ⟨0, 0, ⟨0, 0⟩, ⟨0, 0⟩, []⟩).area_km2) = true ∧
    0 < (((build_records projId [⟨0, 0, none⟩] 1 false).getD 0
        ⟨0, 0, ⟨0, 0⟩, ⟨0, 0⟩, []⟩).area_km2).val ∧
    ((build_records projId [⟨0, 0, none⟩] 1 false).getD 0
        ⟨0, 0, ⟨0, 0⟩, ⟨0, 0⟩, []⟩).density_per_km2 =
      (Q3.ofQ (((build_records projId [⟨0, 0, none⟩] 1 false).getD 0
        ⟨0, 0, ⟨0, 0⟩, ⟨0, 0⟩, []⟩).value)).div
        (((build_records projId [⟨0, 0, none⟩] 1 false).getD 0
          ⟨0, 0, ⟨0, 0⟩, ⟨0, 0⟩, []⟩).area_km2) ∧
    (∀ v a, Q3.posB a = false → densityPerKm2 v a = Q3.ofQ 0)) :=
  ⟨⟨fun _ => rfl, by norm_num, by decide⟩,
    density_branch_spec projId [⟨0, 0, none⟩] 1 false (fun _ => rfl) (by norm_num) _ (by decide)⟩

/-- C8 (amended): per-point contribution of the aggregation.  When the
weight column is in use, a point contributes its weight value and a point
with a missing weight contributes `0` (NaN-skipping sum) — not `1`; the
per-point fallback to `1` exists only when the weight column is not in use
at all, in which case every matched point counts exactly `1`. -/
theorem hexValue_per_point (p : InputPoint) (pts : List InputPoint) (u : Bool)
    (poly : List Pt) :
    hexValue (p :: pts) u poly =
      (if withinB p.geom poly then (if u then p.weight.getD 0 else 1) else 0) +
        hexValue pts u poly ∧
    hexValue pts false poly =
      ((pts.filter fun q => withinB q.geom poly).length : ℚ) := by
  have haux : ∀ l : List InputPoint, ((l.map fun _ => (1 : ℚ)).sum) = l.length := by
    intro l
    induction l with
    | nil => simp
    | cons q rest ih =>
      simp [ih]
      ring
  constructor
  · by_cases hw : withinB p.geom poly = true
    · rw [hexValue, hexValue, List.filter_cons, if_pos hw, if_pos hw]
      simp
    · rw [hexValue, hexValue, List.filter_cons, if_neg hw, if_neg hw]
      simp
  · simp [hexValue, haux]

/-- Counterexample to C8 as stated: two coincident points, one carrying
weight `5`, one with no weight value, in a run where the weight column is
in use.  Both fall in a single hexagon; the claim predicts a total value of
`5 + 1 = 6`, but the code computes `5 + 0 = 5`. -/
theorem weight_fallback_counterexample :
    (make_hex_grid projId (total_bounds [⟨0, 0, some 5⟩, ⟨0, 0, none⟩]) 1).countP
        (fun poly => withinB (InputPoint.geom ⟨0, 0, none⟩) poly) = 1 ∧
    ((build_records projId [⟨0, 0, some 5⟩, ⟨0, 0, none⟩] 1 true).map (·.value)).sum = 5 ∧
    ¬ ((build_records projId [⟨0, 0, some 5⟩, ⟨0, 0, none⟩] 1 true).map (·.value)).sum = 6 := by
  refine ⟨by decide, by decide, ?_⟩
  intro h
  have h5 : ((build_records projId [⟨0, 0, some 5⟩, ⟨0, 0, none⟩] 1 true).map (·.value)).sum
      = 5 := by decide
  rw [h5] at h
  norm_num at h

/-- C10: the `within` predicate excludes the boundary: a point exactly on a
polygon's boundary is not assigned to it, and a point that is on cell
boundaries only (inside no cell interior) contributes to no hexagon's
aggregated value. -/
theorem within_boundary_exclusive (q : InputPoint) (pts : List InputPoint) (u : Bool)
    (g : List (List Pt)) (poly : List Pt)
    (hb : onBoundaryB q.geom poly = true)
    (hg : ∀ pl ∈ g, onBoundaryB q.geom pl = true ∨ coveredB q.geom pl = false) :
    withinB q.geom poly = false ∧
    (∀ pl ∈ g, withinB q.geom pl = false) ∧
    (∀ pl ∈ g, hexValue (q :: pts) u pl = hexValue pts u pl) := by
  have key : ∀ pl2, onBoundaryB q.geom pl2 = true → withinB q.geom pl2 = false := by
    intro pl2 hb2
    rw [onBoundaryB, Bool.and_eq_true] at hb2
    obtain ⟨hcov, hany⟩ := hb2
    rw [List.any_eq_true] at hany
    obtain ⟨e, he, hzero⟩ := hany
    rw [decide_eq_true_eq] at hzero
    rw [← Bool.not_eq_true, withinB, List.all_eq_true]
    intro hall
    have hp := hall e he
    rw [hzero, Q3.posB_iff] at hp
    simp [Q3.val, Q3.ofQ] at hp
  have hwithin : ∀ pl ∈ g, withinB q.geom pl = false := by
    intro pl hpl
    rcases hg pl hpl with h | h
    · exact key pl h
    · rw [← Bool.not_eq_true]
      intro hw
      rw [withinB_covered hw] at h
      simp at h
  refine ⟨key poly hb, hwithin, ?_⟩
  intro pl hpl
  rw [hexValue, hexValue, List.filter_cons, if_neg (by simp [hwithin pl hpl])]

/-- Witness for C10: the point `(-3, -2)` is a vertex of hexagon `0` of the
one-point grid and meets no hexagon's interior. -/
theorem within_boundary_exclusive_witness :
    (onBoundaryB (InputPoint.geom ⟨-3, -2, none⟩)
        ((make_hex_grid projId (total_bounds [⟨0, 0, none⟩]) 1).getD 0 []) = true ∧
      (∀ pl ∈ make_hex_grid projId (total_bounds [⟨0, 0, none⟩]) 1,
        onBoundaryB (InputPoint.geom ⟨-3, -2, none⟩) pl = true ∨
          coveredB (InputPoint.geom ⟨-3, -2, none⟩) pl = false)) ∧
    (withinB (InputPoint.geom ⟨-3, -2, none⟩)
        ((make_hex_grid projId (total_bounds [⟨0, 0, none⟩]) 1).getD 0 []) = false ∧
    (∀ pl ∈ make_hex_grid projId (total_bounds [⟨0, 0, none⟩]) 1,
      withinB (InputPoint.geom ⟨-3, -2, none⟩) pl = false) ∧
    (∀ pl ∈ make_hex_grid projId (total_bounds [⟨0, 0, none⟩]) 1,
      hexValue (⟨-3, -2, none⟩ :: [⟨0, 0, none⟩]) false pl =
        hexValue [⟨0, 0, none⟩] false pl)) :=
  ⟨⟨by decide, by decide⟩,
    within_boundary_exclusive ⟨-3, -2, none⟩ [⟨0, 0, none⟩] false
      (make_hex_grid projId (total_bounds [⟨0, 0, none⟩]) 1)
      ((make_hex_grid projId (total_bounds [⟨0, 0, none⟩]) 1).getD 0 [])
      (by decide) (by decide)⟩

/-- C1 (code bug): the generated grid does not cover the unpadded bounding
box.  For the three points `(0,0)`, `(1,1)`, `(0.598, 0.45)` with `R = 1`,
the box is `(0,0,1,1)`, the third point lies strictly inside it, yet it is
contained in no generated hexagon at all — not even in a closed one — so
the spatial join assigns it to zero `hex_id`s instead of exactly one.  (The
vertex angles `60°·i` produce flat-top hexagons, while the `dx`/`dy`/offset
lattice is the pointy-top one; the mismatch leaves periodic gaps and
overlaps.) -/
theorem coverage_gap_counterexample :
    total_bounds [⟨0, 0, none⟩, ⟨1, 1, none⟩, ⟨299 / 500, 9 / 20, none⟩] = (0, 0, 1, 1) ∧
    ((0 : ℚ) < 299 / 500 ∧ (299 : ℚ) / 500 < 1 ∧ (0 : ℚ) < 9 / 20 ∧ (9 : ℚ) / 20 < 1) ∧
    (make_hex_grid projId
        (total_bounds [⟨0, 0, none⟩, ⟨1, 1, none⟩, ⟨299 / 500, 9 / 20, none⟩]) 1).countP
      (fun poly => withinB (InputPoint.geom ⟨299 / 500, 9 / 20, none⟩) poly) = 0 ∧
    (make_hex_grid projId
        (total_bounds [⟨0, 0, none⟩, ⟨1, 1, none⟩, ⟨299 / 500, 9 / 20, none⟩]) 1).countP
      (fun poly => coveredB (InputPoint.geom ⟨299 / 500, 9 / 20, none⟩) poly) = 0 := by
  refine ⟨by decide, by norm_num, by decide, by decide⟩

set_option maxRecDepth 100000 in
/-- C2 (code bug): the total exported `value` does not equal the number of
points.  For the three points `(0,0)`, `(0.598, 1)`, `(2,2)` with `R = 1`
(all inside their own bounding box `(0,0,2,2)`), the middle point lies in
the interior of two overlapping hexagons and is double counted: the values
sum to `4`, not `3`. -/
theorem conservation_counterexample :
    total_bounds [⟨0, 0, none⟩, ⟨299 / 500, 1, none⟩, ⟨2, 2, none⟩] = (0, 0, 2, 2) ∧
    (make_hex_grid projId
        (total_bounds [⟨0, 0, none⟩, ⟨299 / 500, 1, none⟩, ⟨2, 2, none⟩]) 1).countP
      (fun poly => withinB (InputPoint.geom ⟨299 / 500, 1, none⟩) poly) = 2 ∧
    ([(⟨0, 0, none⟩ : InputPoint), ⟨299 / 500, 1, none⟩, ⟨2, 2, none⟩].length : ℚ) = 3 ∧
    ((build_records projId [⟨0, 0, none⟩, ⟨299 / 500, 1, none⟩, ⟨2, 2, none⟩] 1 false).map
      (·.value)).sum = 4 := by
  refine ⟨by decide, by decide, by norm_num, by decide⟩

/-- C3 (code bug): no invalid-parameter check exists for the radius.  The
checked generator can never report an invalid-parameter condition; at
`R = 0` the run dies with the arithmetic `ZeroDivisionError` raised by
`(maxx_m - minx_m) / dx`, and at `R = -1` it completes without any failure
at all. -/
theorem radius_validation_missing :
    (∀ (proj : Proj) (bounds : ℚ × ℚ × ℚ × ℚ) (R : ℚ),
      make_hex_grid_checked proj bounds R ≠ .error .invalidParameter) ∧
    runError (compute_hotspots projId [⟨0, 0, none⟩] 0 false) = some PyError.zeroDivision ∧
    runError (compute_hotspots projId [⟨0, 0, none⟩] (-1) false) = none := by
  refine ⟨?_, by decide, by decide⟩
  intro proj bounds R
  rw [make_hex_grid_checked]
  split <;> simp
